import Mathlib

/-!
Verification of the silver breakout analyzer (silver_breakout_analysis.py).

The detection core is shallowly embedded: a price series is a list of OHLC
bars indexed by position (dates are modelled by positions, which is faithful
because the pandas index is strictly increasing and index.get_loc resolves a
date to its position), prices and returns are rationals, and the analyzer
object is a state record threaded explicitly through the methods that touch
it.  Missing numeric data (pandas NaN / Python None) is modelled by Option.
-/

namespace Silver

/-- One trading day of the price series.  The source keeps bars in a pandas
DataFrame with columns Open, High, Low, Close; the detection logic reads only
Low and Close, the other two fields are carried for completeness. -/
structure Bar where
  Open : ℚ
  High : ℚ
  Low : ℚ
  Close : ℚ
deriving DecidableEq

/-- Outcome label of a reported breakout event (the status field of a row of
self.breakouts): completed when the forward lookup succeeded, pending when
the series ended before the forward horizon. -/
inductive Status where
  | completed
  | pending
deriving DecidableEq

/-- A reported breakout event: one entry of the breakout_results list built by
identify_breakouts (lines 127-136 of the source).  breakout_date is the series
position of the candidate day. -/
structure BreakoutEvent where
  breakout_date : ℕ
  breakout_price : ℚ
  breakout_return : ℚ
  future_price : Option ℚ
  future_return : Option ℚ
  is_winner : Option Bool
  status : Status
  hold_period_data : List (ℕ × ℚ)
deriving DecidableEq

/-- The price series table (self.data): the fetched bars together with the
derived Daily_Return column that identify_breakouts writes onto the table
(line 70 of the source); the column is none before the first detection run
and is recomputed from the closes on every run. -/
structure PriceData where
  bars : List Bar
  Daily_Return_col : Option (List (Option ℚ))
deriving DecidableEq

/-- Analyzer state: the price series table (self.data) and the last computed
breakout collection (self.breakouts, written at line 138 of the source). -/
structure AnalyzerState where
  data : PriceData
  breakouts : Option (List BreakoutEvent)
deriving DecidableEq

/-- The pandas expression self.data.Close.pct_change() * 100 at position t
(line 70 of the source): day-over-day percentage change of the close, with no
value on the first row (pandas NaN, modelled none). -/
def Daily_Return (bars : List Bar) : ℕ → Option ℚ
  | 0 => none
  | t + 1 =>
    match bars[t]?, bars[t + 1]? with
    | some prev, some cur => some ((cur.Close - prev.Close) / prev.Close * 100)
    | _, _ => none

/-- Membership in breakout_candidates (line 73 of the source): the day has a
daily return and it is at least threshold_pct.  The first bar, whose return is
NaN, never qualifies (a NaN comparison is false in pandas). -/
def is_candidate (bars : List Bar) (threshold_pct : ℚ) (t : ℕ) : Bool :=
  match Daily_Return bars t with
  | some r => decide (threshold_pct ≤ r)
  | none => false

/-- The hold-confirmation loop of identify_breakouts (lines 89-99 of the
source): for each i in 1..hold_days the bar at position t+i must exist and
close at or above the breakout price; a missing bar fails the check, as does a
close strictly below the breakout price. -/
def holds_above (bars : List Bar) (t : ℕ) (breakout_price : ℚ) (hold_days : ℕ) : Bool :=
  (List.range hold_days).all fun i =>
    match bars[t + (i + 1)]? with
    | some b => decide (breakout_price ≤ b.Close)
    | none => false

/-- The hold-period collection loop (lines 117-125 of the source): the (date,
close) pairs for positions t..t+hold_days, skipping positions past the end of
the series. -/
def mk_hold_period_data (bars : List Bar) (t hold_days : ℕ) : List (ℕ × ℚ) :=
  (List.range (hold_days + 1)).filterMap fun i =>
    (bars[t + i]?).map fun b => (t + i, b.Close)

/-- The body of the candidate loop of identify_breakouts (lines 80-136 of the
source) at series position t: breakout_price is the low of the candidate day
(line 82); a candidate failing the hold check is dropped (the continue at line
102); otherwise the forward outcome is evaluated when position t+future_days
exists (has_future_data, line 87) and the event is reported as completed, or
as pending with the three outcome fields unset (lines 104-115). -/
def analyze_candidate (bars : List Bar) (hold_days future_days t : ℕ) :
    Option BreakoutEvent :=
  match Daily_Return bars t, bars[t]? with
  | some ret, some row =>
    let breakout_price := row.Low
    if holds_above bars t breakout_price hold_days then
      match bars[t + future_days]? with
      | some fb =>
        some { breakout_date := t
               breakout_price := breakout_price
               breakout_return := ret
               future_price := some fb.Close
               future_return := some ((fb.Close - breakout_price) / breakout_price * 100)
               is_winner := some (decide (breakout_price < fb.Close))
               status := .completed
               hold_period_data := mk_hold_period_data bars t hold_days }
      | none =>
        some { breakout_date := t
               breakout_price := breakout_price
               breakout_return := ret
               future_price := none
               future_return := none
               is_winner := none
               status := .pending
               hold_period_data := mk_hold_period_data bars t hold_days }
    else none
  | _, _ => none

/-- identify_breakouts (lines 52-178 of the source): writes the Daily_Return
column onto the price table (line 70), filters the candidate days (line 73)
in ascending date order, analyses each candidate, stores the resulting
collection in self.breakouts (line 138), and returns the updated state
together with the reported events. -/
def identify_breakouts (s : AnalyzerState) (threshold_pct : ℚ)
    (hold_days future_days : ℕ) : AnalyzerState × List BreakoutEvent :=
  let bars := s.data.bars
  let newData : PriceData :=
    ⟨bars, some ((List.range bars.length).map (Daily_Return bars))⟩
  let events := (List.range bars.length).filterMap fun t =>
    if is_candidate bars threshold_pct t then
      analyze_candidate bars hold_days future_days t
    else none
  (⟨newData, some events⟩, events)

/-- The completed subset of an event collection, as selected by
breakouts[breakouts.status == completed] (lines 142, 226, 285 of the
source). -/
def completed_events (events : List BreakoutEvent) : List BreakoutEvent :=
  events.filter fun e => decide (e.status = Status.completed)

/-- The values pandas actually aggregates from the future_return column:
mean, median, min, max and std all drop missing entries (the NaN of pending
rows) before reducing, so their common input is the column with the None
entries removed. -/
def future_returns (events : List BreakoutEvent) : List ℚ :=
  events.filterMap fun e => e.future_return

/-- The pandas sum of an is_winner column (lines 152, 231, 374, 384 of the
source): missing entries are dropped and True counts as 1, False as 0, so the
sum is the number of events whose is_winner is true. -/
def winner_sum (events : List BreakoutEvent) : ℕ :=
  events.countP fun e => decide (e.is_winner = some true)

/-- Mean of a list of rationals; none on the empty list (pandas NaN). -/
def meanQ (l : List ℚ) : Option ℚ :=
  if l.isEmpty then none else some (l.sum / l.length)

/-- The pandas median: the middle element of the sorted values, or the average
of the two middle elements when the count is even; none on the empty list
(pandas NaN). -/
def medianQ (l : List ℚ) : Option ℚ :=
  if l.isEmpty then none
  else
    let s := l.mergeSort fun a b => decide (a ≤ b)
    let n := l.length
    if n % 2 = 1 then some (s.getD (n / 2) 0)
    else some ((s.getD (n / 2 - 1) 0 + s.getD (n / 2) 0) / 2)

/-- The completed-only win rate printed by identify_breakouts (lines 150-156
of the source): wins among completed events divided by the number of
completed events, times 100. -/
def completed_win_rate (events : List BreakoutEvent) : ℚ :=
  (winner_sum (completed_events events) : ℚ) / ((completed_events events).length : ℚ) * 100

/-- One row of the parameter sweep table (lines 381-403 of the source).
Statistics that can be missing (pandas NaN, which happens when every event of
a nonempty collection is pending) are modelled as none.  The std_return
column is not carried because a standard deviation takes a square root out of
the rationals; its input series is the same dropped-missing future_return
column as the other four statistics (future_returns), which is what the
claims about it concern. -/
structure SweepRow where
  threshold_pct : ℚ
  total_breakouts : ℕ
  wins : ℕ
  win_rate : ℚ
  avg_return : Option ℚ
  median_return : Option ℚ
  min_return : Option ℚ
  max_return : Option ℚ
deriving DecidableEq

/-- The per-threshold row computation of generate_parameter_sweep_table
(lines 373-403 of the source): with at least one event, win_rate divides the
is_winner sum by the total number of events (line 374) and the return
statistics aggregate the dropped-missing future_return column; with no events
every figure is the sentinel 0 (lines 393-403). -/
def sweep_row (threshold_pct : ℚ) (events : List BreakoutEvent) : SweepRow :=
  if events.isEmpty then
    { threshold_pct := threshold_pct, total_breakouts := 0, wins := 0,
      win_rate := 0, avg_return := some 0, median_return := some 0,
      min_return := some 0, max_return := some 0 }
  else
    let rs := future_returns events
    { threshold_pct := threshold_pct
      total_breakouts := events.length
      wins := winner_sum events
      win_rate := (winner_sum events : ℚ) / (events.length : ℚ) * 100
      avg_return := meanQ rs
      median_return := medianQ rs
      min_return := rs.min?
      max_return := rs.max? }

/-- generate_parameter_sweep_table (lines 357-422 of the source): one
identify_breakouts run per threshold with the hard-coded hold_days = 2 and
future_days = 126 of lines 367-371, on the threaded analyzer state (each run
rewrites the Daily_Return column on self.data), collecting one summary row
per threshold in input order. -/
def generate_parameter_sweep_table (s : AnalyzerState) (thresholds : List ℚ) :
    AnalyzerState × List SweepRow :=
  match thresholds with
  | [] => (s, [])
  | θ :: rest =>
    let res := identify_breakouts s θ 2 126
    let tail := generate_parameter_sweep_table res.1 rest
    (tail.1, sweep_row θ res.2 :: tail.2)

/-- The title statistics computed by plot_breakouts (lines 226-238 of the
source). -/
structure PlotStats where
  median_return : Option ℚ
  win_rate : ℚ
  win_count : ℕ
  completed_count : ℕ
deriving DecidableEq

/-- The statistics block of plot_breakouts (lines 226-238 of the source):
median forward return, win count, win rate and count over the completed
events only, with the sentinel 0 for every figure when no event is
completed. -/
def plot_breakouts_stats (events : List BreakoutEvent) : PlotStats :=
  let completed := completed_events events
  if completed.isEmpty then
    { median_return := some 0, win_rate := 0, win_count := 0, completed_count := 0 }
  else
    { median_return := medianQ (future_returns completed)
      win_rate := (winner_sum completed : ℚ) / (completed.length : ℚ) * 100
      win_count := winner_sum completed
      completed_count := completed.length }

/-! Concrete series used to exercise the definitions on explicit inputs. -/

/-- A flat bar whose four prices coincide. -/
def mkBar (c : ℚ) : Bar := ⟨c, c, c, c⟩

/-- A four-day series with three consecutive 25 percent up days; with a 5
percent threshold, days 1, 2 and 3 are candidates and day 3 fails every hold
check with hold_days at least 1 (no trailing bar). -/
def demo_bars : List Bar := [mkBar 64, mkBar 80, mkBar 100, mkBar 125]

/-- A freshly initialised analyzer holding the four-day demo series. -/
def demo_state : AnalyzerState := ⟨⟨demo_bars, none⟩, none⟩

/-- A two-day series whose single daily return is exactly 5 percent. -/
def tie_bars : List Bar := [mkBar 100, mkBar 105]

/-- A three-day series with no day gaining 5 percent or more. -/
def quiet_bars : List Bar := [mkBar 100, mkBar 101, mkBar 102]

/-- The event reported for day 1 of the demo series with hold_days = 1 and
future_days = 1: completed, forward price 100, forward return 25 percent. -/
def demoA_e1 : BreakoutEvent :=
  ⟨1, 80, 25, some 100, some 25, some true, .completed, [(1, 80), (2, 100)]⟩

/-- The event reported for day 2 of the demo series with hold_days = 1 and
future_days = 1: completed, forward price 125, forward return 25 percent. -/
def demoA_e2 : BreakoutEvent :=
  ⟨2, 100, 25, some 125, some 25, some true, .completed, [(2, 100), (3, 125)]⟩

/-- The event reported for day 1 of the demo series with hold_days = 1 and
future_days = 2: completed, forward price 125, forward return 56.25
percent. -/
def demoB_e1 : BreakoutEvent :=
  ⟨1, 80, 25, some 125, some (225 / 4), some true, .completed, [(1, 80), (2, 100)]⟩

/-- The event reported for day 2 of the demo series with hold_days = 1 and
future_days = 2: pending, because position 2 + 2 is past the end of the
series. -/
def demoB_e2 : BreakoutEvent :=
  ⟨2, 100, 25, none, none, none, .pending, [(2, 100), (3, 125)]⟩

/-- The event reported for day 1 of the demo series with future_days = 0: the
forward lookup lands on the breakout day itself. -/
def demoC_e1 : BreakoutEvent :=
  ⟨1, 80, 25, some 80, some 0, some false, .completed, [(1, 80), (2, 100)]⟩

/-- The event reported for day 2 of the demo series with future_days = 0. -/
def demoC_e2 : BreakoutEvent :=
  ⟨2, 100, 25, some 100, some 0, some false, .completed, [(2, 100), (3, 125)]⟩

/-! Evaluations of the detection pipeline on the concrete series. -/

lemma demoA_events :
    (identify_breakouts demo_state 5 1 1).2 = [demoA_e1, demoA_e2] := by
  norm_num [identify_breakouts, demo_state, demo_bars, mkBar, is_candidate,
    analyze_candidate, Daily_Return, holds_above, mk_hold_period_data,
    List.range_succ, List.filterMap_cons, demoA_e1, demoA_e2]

lemma demoB_events :
    (identify_breakouts demo_state 5 1 2).2 = [demoB_e1, demoB_e2] := by
  norm_num [identify_breakouts, demo_state, demo_bars, mkBar, is_candidate,
    analyze_candidate, Daily_Return, holds_above, mk_hold_period_data,
    List.range_succ, List.filterMap_cons, demoB_e1, demoB_e2]

lemma demoC_events :
    (identify_breakouts demo_state 5 1 0).2 = [demoC_e1, demoC_e2] := by
  norm_num [identify_breakouts, demo_state, demo_bars, mkBar, is_candidate,
    analyze_candidate, Daily_Return, holds_above, mk_hold_period_data,
    List.range_succ, List.filterMap_cons, demoC_e1, demoC_e2]

lemma quiet_no_candidate (t : ℕ) : is_candidate quiet_bars 5 t = false := by
  rcases t with _ | _ | _ | _ | n <;>
    norm_num [is_candidate, Daily_Return, quiet_bars, mkBar]

lemma tie_return : Daily_Return tie_bars 1 = some 5 := by
  norm_num [Daily_Return, tie_bars, mkBar]

lemma cex_win_rate :
    (sweep_row 5 (identify_breakouts demo_state 5 1 2).2).win_rate = 50 := by
  rw [demoB_events]
  simp only [sweep_row, winner_sum, future_returns, demoB_e1, demoB_e2,
    List.countP_cons, List.countP_nil, List.isEmpty_cons, List.length_cons,
    List.length_nil, Option.some.injEq, reduceCtorEq, decide_eq_true_eq]
  norm_num

lemma cex_completed_rate :
    completed_win_rate (identify_breakouts demo_state 5 1 2).2 = 100 := by
  rw [demoB_events]
  simp only [completed_win_rate, completed_events, winner_sum, demoB_e1, demoB_e2,
    List.countP_cons, List.countP_nil, List.filter_cons, List.filter_nil,
    List.length_cons, List.length_nil, Option.some.injEq, reduceCtorEq,
    decide_eq_true_eq, decide_eq_false_iff_not, if_true, if_false]
  norm_num

/-! Structural lemmas about the detection pipeline. -/

lemma Daily_Return_zero (bars : List Bar) : Daily_Return bars 0 = none := rfl

lemma Daily_Return_lt_length {bars : List Bar} {t : ℕ} {r : ℚ}
    (h : Daily_Return bars t = some r) : t < bars.length := by
  cases t with
  | zero => simp [Daily_Return] at h
  | succ n =>
    unfold Daily_Return at h
    rcases h1 : bars[n]? with _ | prev <;> rcases h2 : bars[n + 1]? with _ | cur <;>
      simp [h1, h2] at h
    exact (List.getElem?_eq_some.mp h2).1

lemma is_candidate_spec {bars : List Bar} {θ : ℚ} {t : ℕ}
    (h : is_candidate bars θ t = true) :
    ∃ r, Daily_Return bars t = some r ∧ θ ≤ r := by
  unfold is_candidate at h
  rcases hdr : Daily_Return bars t with _ | r <;> simp [hdr] at h
  exact ⟨r, rfl, h⟩

lemma mem_identify_iff {s : AnalyzerState} {θ : ℚ} {hd fd : ℕ} {e : BreakoutEvent} :
    e ∈ (identify_breakouts s θ hd fd).2 ↔
      ∃ t, is_candidate s.data.bars θ t = true ∧
        analyze_candidate s.data.bars hd fd t = some e := by
  simp only [identify_breakouts, List.mem_filterMap, List.mem_range]
  constructor
  · rintro ⟨t, _, hsome⟩
    by_cases hc : is_candidate s.data.bars θ t
    · exact ⟨t, hc, by simpa [hc] using hsome⟩
    · simp [hc] at hsome
  · rintro ⟨t, hc, ha⟩
    obtain ⟨r, hdr, _⟩ := is_candidate_spec hc
    exact ⟨t, Daily_Return_lt_length hdr, by simp [hc, ha]⟩

lemma holds_above_spec {bars : List Bar} {t : ℕ} {bp : ℚ} {hd : ℕ}
    (h : holds_above bars t bp hd = true) :
    ∀ j, 1 ≤ j → j ≤ hd → ∃ b, bars[t + j]? = some b ∧ bp ≤ b.Close := by
  intro j hj1 hjhd
  have hmem : j - 1 ∈ List.range hd := List.mem_range.mpr (by omega)
  have := (List.all_eq_true.mp h) _ hmem
  rcases hb : bars[t + (j - 1 + 1)]? with _ | b <;> simp [hb] at this
  have hj : j - 1 + 1 = j := by omega
  rw [hj] at hb
  exact ⟨b, hb, this⟩

lemma analyze_candidate_anatomy {bars : List Bar} {hd fd t : ℕ} {e : BreakoutEvent}
    (h : analyze_candidate bars hd fd t = some e) :
    ∃ ret row, Daily_Return bars t = some ret ∧ bars[t]? = some row ∧
      holds_above bars t row.Low hd = true ∧
      e.breakout_date = t ∧ e.breakout_price = row.Low ∧ e.breakout_return = ret ∧
      e.hold_period_data = mk_hold_period_data bars t hd ∧
      ((∃ fb, bars[t + fd]? = some fb ∧ e.status = .completed ∧
          e.future_price = some fb.Close ∧
          e.future_return = some ((fb.Close - row.Low) / row.Low * 100) ∧
          e.is_winner = some (decide (row.Low < fb.Close))) ∨
        (bars[t + fd]? = none ∧ e.status = .pending ∧ e.future_price = none ∧
          e.future_return = none ∧ e.is_winner = none)) := by
  unfold analyze_candidate at h
  rcases hdr : Daily_Return bars t with _ | ret <;>
    rcases hrow : bars[t]? with _ | row <;>
      simp only [hdr, hrow, reduceCtorEq] at h
  by_cases hh : holds_above bars t row.Low hd = true
  · rw [if_pos hh] at h
    rcases hfb : bars[t + fd]? with _ | fb <;> simp only [hfb] at h
    · injection h with h
      subst h
      exact ⟨ret, row, rfl, rfl, hh, rfl, rfl, rfl, rfl, Or.inr ⟨rfl, rfl, rfl, rfl, rfl⟩⟩
    · injection h with h
      subst h
      exact ⟨ret, row, rfl, rfl, hh, rfl, rfl, rfl, rfl,
        Or.inl ⟨fb, rfl, rfl, rfl, rfl, rfl⟩⟩
  · rw [if_neg hh] at h
    exact absurd h (by simp)

lemma filterMap_length_of_isSome {α β : Type} (l : List α) (f : α → Option β)
    (h : ∀ a ∈ l, (f a).isSome) : (l.filterMap f).length = l.length := by
  induction l with
  | nil => rfl
  | cons a l ih =>
    rcases hfa : f a with _ | b
    · exact absurd (h a (by simp)) (by simp [hfa])
    · simp only [List.filterMap_cons, hfa, List.length_cons]
      rw [ih fun x hx => h x (by simp [hx])]

lemma filterMap_getElem?_of_isSome {α β : Type} (l : List α) (f : α → Option β)
    (h : ∀ a ∈ l, (f a).isSome) (j : ℕ) :
    (l.filterMap f)[j]? = l[j]?.bind f := by
  induction l generalizing j with
  | nil => simp
  | cons a l ih =>
    rcases hfa : f a with _ | b
    · exact absurd (h a (by simp)) (by simp [hfa])
    · cases j with
      | zero => simp [List.filterMap_cons, hfa]
      | succ n =>
        simp only [List.filterMap_cons, hfa, List.getElem?_cons_succ]
        exact ih (fun x hx => h x (by simp [hx])) n

lemma future_returns_completed {E : List BreakoutEvent}
    (h : ∀ e ∈ E, e.status = Status.pending → e.future_return = none) :
    future_returns E = future_returns (completed_events E) := by
  induction E with
  | nil => rfl
  | cons e E ih =>
    have ht := ih fun x hx hp => h x (by simp [hx]) hp
    unfold future_returns completed_events at ht ⊢
    cases hst : e.status with
    | completed => simp [List.filterMap_cons, List.filter_cons, hst, ht]
    | pending =>
      have hn : e.future_return = none := h e (by simp) hst
      simp [List.filterMap_cons, List.filter_cons, hst, hn, ht]

lemma winner_sum_completed {E : List BreakoutEvent}
    (h : ∀ e ∈ E, e.status = Status.pending → e.is_winner = none) :
    winner_sum E = winner_sum (completed_events E) := by
  induction E with
  | nil => rfl
  | cons e E ih =>
    have ht := ih fun x hx hp => h x (by simp [hx]) hp
    unfold winner_sum completed_events at ht ⊢
    cases hst : e.status with
    | completed => simp [List.countP_cons, List.filter_cons, hst, ht]
    | pending =>
      have hn : e.is_winner = none := h e (by simp) hst
      simp [List.countP_cons, List.filter_cons, hst, hn, ht]

lemma pending_fields_none {s : AnalyzerState} {θ : ℚ} {hd fd : ℕ} :
    ∀ e ∈ (identify_breakouts s θ hd fd).2, e.status = Status.pending →
      e.future_return = none ∧ e.is_winner = none := by
  intro e he hp
  obtain ⟨t, _, ha⟩ := mem_identify_iff.mp he
  obtain ⟨ret, row, _, _, _, _, _, _, _, hout⟩ := analyze_candidate_anatomy ha
  rcases hout with ⟨fb, _, hc, _⟩ | ⟨_, _, _, hfr, hw⟩
  · rw [hp] at hc
    exact absurd hc (by simp)
  · exact ⟨hfr, hw⟩

/-! The claims. -/

/-- C1 (corrected), counterexample: on the four-day demo series with one
completed winning event and one pending event, the sweep row computation of
generate_parameter_sweep_table reports a win rate of 50 because line 374
divides the completed-winner count by the total number of events including
the pending one, while the completed-only win rate (the one the claim
describes, printed by identify_breakouts at lines 150-156) is 100. -/
theorem C1_sweep_denominator_counterexample :
    (sweep_row 5 (identify_breakouts demo_state 5 1 2).2).win_rate = 50 ∧
    completed_win_rate (identify_breakouts demo_state 5 1 2).2 = 100 ∧
    (sweep_row 5 (identify_breakouts demo_state 5 1 2).2).win_rate
      ≠ completed_win_rate (identify_breakouts demo_state 5 1 2).2 := by
  refine ⟨cex_win_rate, cex_completed_rate, ?_⟩
  rw [cex_win_rate, cex_completed_rate]
  norm_num

/-- C1 (corrected), amended claim: for every detection run, the future_return
values the sweep statistics (mean, median, min, max, std) aggregate are
exactly the returns of the completed events (pandas drops the missing values
of pending rows), and the win numerator counts completed winners only; but
the sweep row win rate divides that numerator by the TOTAL number of reported
events, pending ones included, not by the number of completed events. -/
theorem C1_aggregation_inputs (s : AnalyzerState) (θ row_θ : ℚ) (hd fd : ℕ) :
    future_returns (identify_breakouts s θ hd fd).2
        = future_returns (completed_events (identify_breakouts s θ hd fd).2) ∧
    winner_sum (identify_breakouts s θ hd fd).2
        = winner_sum (completed_events (identify_breakouts s θ hd fd).2) ∧
    ((identify_breakouts s θ hd fd).2 ≠ [] →
      (sweep_row row_θ (identify_breakouts s θ hd fd).2).win_rate
        = (winner_sum (completed_events (identify_breakouts s θ hd fd).2) : ℚ)
            / (((identify_breakouts s θ hd fd).2.length : ℕ) : ℚ) * 100) := by
  have hp := @pending_fields_none s θ hd fd
  have hfr := future_returns_completed fun e he hpend => (hp e he hpend).1
  have hws := winner_sum_completed fun e he hpend => (hp e he hpend).2
  refine ⟨hfr, hws, fun hne => ?_⟩
  rw [← hws]
  simp [sweep_row, List.isEmpty_iff, hne]

/-- C1, witness: the amended claim instantiated on the demo run that has one
completed and one pending event. -/
theorem C1_aggregation_inputs_witness :
    future_returns (identify_breakouts demo_state 5 1 2).2
        = future_returns (completed_events (identify_breakouts demo_state 5 1 2).2) ∧
    winner_sum (identify_breakouts demo_state 5 1 2).2
        = winner_sum (completed_events (identify_breakouts demo_state 5 1 2).2) ∧
    (sweep_row 5 (identify_breakouts demo_state 5 1 2).2).win_rate
        = (winner_sum (completed_events (identify_breakouts demo_state 5 1 2).2) : ℚ)
            / (((identify_breakouts demo_state 5 1 2).2.length : ℕ) : ℚ) * 100 := by
  obtain ⟨h1, h2, h3⟩ := C1_aggregation_inputs demo_state 5 5 1 2
  exact ⟨h1, h2, h3 (by rw [demoB_events]; simp)⟩

/-- C2 (corrected), counterexample: the analyzer data is NOT unchanged by
identify_breakouts; on a freshly fetched series the run writes the derived
Daily_Return column onto the price table (line 70 of the source), so the
table after the run differs from the supplied one. -/
theorem C2_series_mutated :
    (identify_breakouts demo_state 5 2 126).1.data ≠ demo_state.data := by
  intro h
  have hcol := congrArg PriceData.Daily_Return_col h
  simp [identify_breakouts, demo_state] at hcol

/-- C2 (corrected), amended claim: identify_breakouts never modifies the
sequence of bars (every OHLC field of every bar is preserved) and the
reported event set is a fresh value depending only on the bars (not on the
previously stored column or breakout set); but the price table itself is
mutated: the derived Daily_Return column is (re)computed from the closes and
written onto it on every run. -/
theorem C2_bars_preserved (bars : List Bar) (c : Option (List (Option ℚ)))
    (b0 : Option (List BreakoutEvent)) (θ : ℚ) (hd fd : ℕ) :
    (identify_breakouts ⟨⟨bars, c⟩, b0⟩ θ hd fd).1.data.bars = bars ∧
    (identify_breakouts ⟨⟨bars, c⟩, b0⟩ θ hd fd).1.data.Daily_Return_col
      = some ((List.range bars.length).map (Daily_Return bars)) ∧
    (identify_breakouts ⟨⟨bars, c⟩, b0⟩ θ hd fd).2
      = (identify_breakouts ⟨⟨bars, none⟩, none⟩ θ hd fd).2 :=
  ⟨rfl, rfl, rfl⟩

/-- C3: every reported event held: for each j in 1..hold_days the bar at
position breakout_date + j exists and closes at or above the breakout price;
and with hold_days at least 1 a candidate on the last bar of the series is
never reported. -/
theorem C3_hold_invariant (s : AnalyzerState) (θ : ℚ) (hd fd : ℕ)
    (e : BreakoutEvent) (he : e ∈ (identify_breakouts s θ hd fd).2) :
    (∀ j, 1 ≤ j → j ≤ hd →
      ∃ b, s.data.bars[e.breakout_date + j]? = some b ∧ e.breakout_price ≤ b.Close) ∧
    (1 ≤ hd → e.breakout_date ≠ s.data.bars.length - 1) := by
  obtain ⟨t, hc, ha⟩ := mem_identify_iff.mp he
  obtain ⟨ret, row, hdr, hrow, hh, hbd, hbp, _, _, _⟩ := analyze_candidate_anatomy ha
  rw [hbd, hbp]
  constructor
  · exact fun j hj1 hj2 => holds_above_spec hh j hj1 hj2
  · intro hhd
    obtain ⟨b, hb, _⟩ := holds_above_spec hh 1 le_rfl hhd
    have hlt : t + 1 < s.data.bars.length := (List.getElem?_eq_some.mp hb).1
    omega

/-- C3, witness: the hold invariant instantiated on the first demo event at
j = 1 with hold_days = 1. -/
theorem C3_hold_invariant_witness :
    (∃ b, demo_state.data.bars[demoA_e1.breakout_date + 1]? = some b ∧
      demoA_e1.breakout_price ≤ b.Close) ∧
    demoA_e1.breakout_date ≠ demo_state.data.bars.length - 1 := by
  have h := C3_hold_invariant demo_state 5 1 1 demoA_e1 (by rw [demoA_events]; simp)
  exact ⟨h.1 1 le_rfl le_rfl, h.2 le_rfl⟩

/-- C4: a reported event is completed exactly when position breakout_date +
future_days is inside the series, in which case future_price is that bar's
close and future_return is the percentage gain over the breakout price;
otherwise the event is pending and its future_price, future_return and
is_winner are all unset (none), never zero. -/
theorem C4_outcome_fields (s : AnalyzerState) (θ : ℚ) (hd fd : ℕ)
    (e : BreakoutEvent) (he : e ∈ (identify_breakouts s θ hd fd).2) :
    (e.status = Status.completed ↔ e.breakout_date + fd < s.data.bars.length) ∧
    (e.status = Status.completed →
      ∃ fb, s.data.bars[e.breakout_date + fd]? = some fb ∧
        e.future_price = some fb.Close ∧
        e.future_return = some ((fb.Close - e.breakout_price) / e.breakout_price * 100)) ∧
    (e.status = Status.pending →
      e.future_price = none ∧ e.future_return = none ∧ e.is_winner = none) := by
  obtain ⟨t, hc, ha⟩ := mem_identify_iff.mp he
  obtain ⟨ret, row, hdr, hrow, hh, hbd, hbp, _, _, hout⟩ := analyze_candidate_anatomy ha
  rw [hbd, hbp]
  rcases hout with ⟨fb, hfb, hst, hfp, hfr, hw⟩ | ⟨hfb, hst, hfp, hfr, hw⟩
  · refine ⟨⟨fun _ => (List.getElem?_eq_some.mp hfb).1, fun _ => hst⟩,
      fun _ => ⟨fb, hfb, hfp, hfr⟩, fun hpend => ?_⟩
    rw [hst] at hpend
    exact absurd hpend (by simp)
  · have hge : s.data.bars.length ≤ t + fd := List.getElem?_eq_none_iff.mp hfb
    refine ⟨⟨fun hcompl => ?_, fun hlt => ?_⟩, fun hcompl => ?_, fun _ => ⟨hfp, hfr, hw⟩⟩
    · rw [hst] at hcompl
      exact absurd hcompl (by simp)
    · omega
    · rw [hst] at hcompl
      exact absurd hcompl (by simp)

/-- C4, witness: the outcome labeling instantiated on a completed demo event
and on a pending demo event. -/
theorem C4_outcome_fields_witness :
    (demoA_e1.status = Status.completed ↔
      demoA_e1.breakout_date + 1 < demo_state.data.bars.length) ∧
    (∃ fb, demo_state.data.bars[demoA_e1.breakout_date + 1]? = some fb ∧
      demoA_e1.future_price = some fb.Close ∧
      demoA_e1.future_return
        = some ((fb.Close - demoA_e1.breakout_price) / demoA_e1.breakout_price * 100)) ∧
    (demoB_e2.future_price = none ∧ demoB_e2.future_return = none ∧
      demoB_e2.is_winner = none) := by
  have h1 := C4_outcome_fields demo_state 5 1 1 demoA_e1 (by rw [demoA_events]; simp)
  have h2 := C4_outcome_fields demo_state 5 1 2 demoB_e2 (by rw [demoB_events]; simp)
  exact ⟨h1.1, h1.2.1 rfl, h2.2.2 rfl⟩

/-- C5: every reported event has breakout_return at least threshold_pct, the
first bar of the series (whose daily return is undefined) is never reported,
and a day whose return equals the threshold exactly is included as a
candidate (the filter is greater-or-equal, not strict). -/
theorem C5_threshold_filter (s : AnalyzerState) (θ : ℚ) (hd fd : ℕ) :
    (∀ e ∈ (identify_breakouts s θ hd fd).2,
      θ ≤ e.breakout_return ∧ e.breakout_date ≠ 0) ∧
    (∀ t, Daily_Return s.data.bars t = some θ →
      is_candidate s.data.bars θ t = true) := by
  constructor
  · intro e he
    obtain ⟨t, hc, ha⟩ := mem_identify_iff.mp he
    obtain ⟨ret, row, hdr, hrow, hh, hbd, hbp, hbr, _, _⟩ := analyze_candidate_anatomy ha
    obtain ⟨r, hdr2, hθ⟩ := is_candidate_spec hc
    rw [hdr] at hdr2
    injection hdr2 with hr
    subst hr
    refine ⟨by rw [hbr]; exact hθ, ?_⟩
    rw [hbd]
    intro h0
    rw [h0, Daily_Return_zero] at hdr
    exact absurd hdr (by simp)
  · intro t hdr
    unfold is_candidate
    rw [hdr]
    simp

/-- C5, witness: instantiated on the first demo event, and on the two-day
series whose single daily return is exactly the 5 percent threshold. -/
theorem C5_threshold_filter_witness :
    ((5:ℚ) ≤ demoA_e1.breakout_return ∧ demoA_e1.breakout_date ≠ 0) ∧
    is_candidate tie_bars 5 1 = true := by
  refine ⟨(C5_threshold_filter demo_state 5 1 1).1 demoA_e1 (by rw [demoA_events]; simp), ?_⟩
  exact (C5_threshold_filter ⟨⟨tie_bars, none⟩, none⟩ 5 1 1).2 1 tie_return

/-- C6: for every completed event is_winner is exactly the strict comparison
of future_price against breakout_price, so an event whose future price equals
its breakout price is labeled a loss. -/
theorem C6_winner_strict (s : AnalyzerState) (θ : ℚ) (hd fd : ℕ)
    (e : BreakoutEvent) (he : e ∈ (identify_breakouts s θ hd fd).2)
    (hc : e.status = Status.completed) :
    ∃ fp, e.future_price = some fp ∧
      e.is_winner = some (decide (e.breakout_price < fp)) ∧
      (fp = e.breakout_price → e.is_winner = some false) := by
  obtain ⟨t, _, ha⟩ := mem_identify_iff.mp he
  obtain ⟨ret, row, hdr, hrow, hh, hbd, hbp, _, _, hout⟩ := analyze_candidate_anatomy ha
  rcases hout with ⟨fb, hfb, hst, hfp, hfr, hw⟩ | ⟨hfb, hst, hfp, hfr, hw⟩
  · refine ⟨fb.Close, hfp, by rw [hw, hbp], fun heq => ?_⟩
    rw [hw]
    have hcl : fb.Close = row.Low := by rw [heq, hbp]
    rw [hcl]
    simp
  · rw [hst] at hc
    exact absurd hc (by simp)

/-- C6, witness: the strict win rule instantiated on the first demo event. -/
theorem C6_winner_strict_witness :
    ∃ fp, demoA_e1.future_price = some fp ∧
      demoA_e1.is_winner = some (decide (demoA_e1.breakout_price < fp)) ∧
      (fp = demoA_e1.breakout_price → demoA_e1.is_winner = some false) :=
  C6_winner_strict demo_state 5 1 1 demoA_e1 (by rw [demoA_events]; simp) rfl

/-- C7: the parameter sweep rows coincide with one standalone detection run
per threshold from the original analyzer state (same hold_days = 2 and
future_days = 126), for every starting Daily_Return column and stored
breakout set; the state threaded through the sweep iterations never changes
any row, so the iterations are independent. -/
theorem C7_sweep_consistency (bars : List Bar) (c : Option (List (Option ℚ)))
    (b0 : Option (List BreakoutEvent)) (thresholds : List ℚ) :
    (generate_parameter_sweep_table ⟨⟨bars, c⟩, b0⟩ thresholds).2 =
      thresholds.map fun θ =>
        sweep_row θ (identify_breakouts ⟨⟨bars, c⟩, b0⟩ θ 2 126).2 := by
  induction thresholds generalizing c b0 with
  | nil => rfl
  | cons θ rest ih =>
    simp only [generate_parameter_sweep_table, List.map_cons]
    exact congrArg₂ List.cons rfl (ih _ _)

/-- C8: a run in which no day passes the threshold filter, or in which every
candidate is dropped by the hold check, returns the empty event collection as
a normal value; the sweep row for an empty collection reports the sentinel 0
for every statistic, and the plot statistics over a collection with no
completed event are likewise all 0. -/
theorem C8_empty_collection (bars : List Bar) (c : Option (List (Option ℚ)))
    (b0 : Option (List BreakoutEvent)) (θ : ℚ) (hd fd : ℕ) :
    ((∀ t, is_candidate bars θ t = false ∨ analyze_candidate bars hd fd t = none) →
      (identify_breakouts ⟨⟨bars, c⟩, b0⟩ θ hd fd).2 = []) ∧
    sweep_row θ [] = ⟨θ, 0, 0, 0, some 0, some 0, some 0, some 0⟩ ∧
    ∀ events : List BreakoutEvent, completed_events events = [] →
      plot_breakouts_stats events = ⟨some 0, 0, 0, 0⟩ := by
  refine ⟨?_, rfl, ?_⟩
  · intro h
    simp only [identify_breakouts]
    refine List.filterMap_eq_nil_iff.mpr fun t _ => ?_
    rcases h t with hc | ha
    · simp [hc]
    · simp [ha]
  · intro events hce
    simp [plot_breakouts_stats, hce]

/-- C8, witness: instantiated on the quiet three-day series, where no day
gains 5 percent, and on the empty collection. -/
theorem C8_empty_collection_witness :
    (identify_breakouts ⟨⟨quiet_bars, none⟩, none⟩ 5 2 126).2 = [] ∧
    sweep_row 5 [] = ⟨5, 0, 0, 0, some 0, some 0, some 0, some 0⟩ ∧
    plot_breakouts_stats [] = ⟨some 0, 0, 0, 0⟩ := by
  obtain ⟨h1, h2, h3⟩ := C8_empty_collection quiet_bars none none 5 2 126
  exact ⟨h1 fun t => Or.inl (quiet_no_candidate t), h2, h3 [] rfl⟩

/-- C9: every reported event carries a hold_period_data sequence of exactly
hold_days + 1 entries covering positions breakout_date..breakout_date +
hold_days; the truncation case of the collection loop is unreachable for
reported events because a candidate missing a trailing hold-window bar was
already rejected by the hold check. -/
theorem C9_hold_window_complete (s : AnalyzerState) (θ : ℚ) (hd fd : ℕ)
    (e : BreakoutEvent) (he : e ∈ (identify_breakouts s θ hd fd).2) :
    e.hold_period_data.length = hd + 1 ∧
    ∀ j, j ≤ hd → ∃ b, s.data.bars[e.breakout_date + j]? = some b ∧
      e.hold_period_data[j]? = some (e.breakout_date + j, b.Close) := by
  obtain ⟨t, hc, ha⟩ := mem_identify_iff.mp he
  obtain ⟨ret, row, hdr, hrow, hh, hbd, hbp, _, hpd, _⟩ := analyze_candidate_anatomy ha
  have hex : ∀ j, j ≤ hd → ∃ b, s.data.bars[t + j]? = some b := by
    intro j hj
    rcases Nat.eq_zero_or_pos j with rfl | hjp
    · exact ⟨row, by simpa using hrow⟩
    · obtain ⟨b, hb, _⟩ := holds_above_spec hh j hjp hj
      exact ⟨b, hb⟩
  have hsome : ∀ i ∈ List.range (hd + 1),
      ((s.data.bars[t + i]?).map fun b => ((t + i : ℕ), b.Close)).isSome := by
    intro i hi
    obtain ⟨b, hb⟩ := hex i (by have := List.mem_range.mp hi; omega)
    simp [hb]
  constructor
  · rw [hpd]
    unfold mk_hold_period_data
    rw [filterMap_length_of_isSome _ _ hsome, List.length_range]
  · intro j hj
    obtain ⟨b, hb⟩ := hex j hj
    rw [hbd, hpd]
    refine ⟨b, hb, ?_⟩
    unfold mk_hold_period_data
    rw [filterMap_getElem?_of_isSome _ _ hsome j]
    rw [List.getElem?_range (by omega)]
    simp [hb]

/-- C9, witness: the hold-window completeness instantiated on the first demo
event with hold_days = 1, reading its second entry. -/
theorem C9_hold_window_complete_witness :
    demoA_e1.hold_period_data.length = 1 + 1 ∧
    ∃ b, demo_state.data.bars[demoA_e1.breakout_date + 1]? = some b ∧
      demoA_e1.hold_period_data[1]? = some (demoA_e1.breakout_date + 1, b.Close) := by
  have h := C9_hold_window_complete demo_state 5 1 1 demoA_e1 (by rw [demoA_events]; simp)
  exact ⟨h.1, h.2 1 le_rfl⟩

/-- C10: with future_days = 0 every reported event is completed (the forward
lookup lands on the breakout day itself, which always exists), its
future_price is the breakout day's own close, its future_return is the gain
of the close over the day's low, and it is a winner exactly when the close is
strictly above the low. -/
theorem C10_zero_horizon (s : AnalyzerState) (θ : ℚ) (hd : ℕ)
    (e : BreakoutEvent) (he : e ∈ (identify_breakouts s θ hd 0).2) :
    e.status = Status.completed ∧
    ∃ b, s.data.bars[e.breakout_date]? = some b ∧ e.breakout_price = b.Low ∧
      e.future_price = some b.Close ∧
      e.future_return = some ((b.Close - b.Low) / b.Low * 100) ∧
      e.is_winner = some (decide (b.Low < b.Close)) := by
  obtain ⟨t, _, ha⟩ := mem_identify_iff.mp he
  obtain ⟨ret, row, hdr, hrow, hh, hbd, hbp, _, _, hout⟩ := analyze_candidate_anatomy ha
  rcases hout with ⟨fb, hfb, hst, hfp, hfr, hw⟩ | ⟨hfb, hst, hfp, hfr, hw⟩
  · rw [Nat.add_zero, hrow] at hfb
    injection hfb with hfb
    subst hfb
    rw [hbd, hbp]
    exact ⟨hst, row, hrow, rfl, hfp, hfr, hw⟩
  · rw [Nat.add_zero, hrow] at hfb
    exact absurd hfb (by simp)

/-- C10, witness: the zero-horizon rule instantiated on the first demo event
of the run with future_days = 0. -/
theorem C10_zero_horizon_witness :
    demoC_e1.status = Status.completed ∧
    ∃ b, demo_state.data.bars[demoC_e1.breakout_date]? = some b ∧
      demoC_e1.breakout_price = b.Low ∧ demoC_e1.future_price = some b.Close ∧
      demoC_e1.future_return = some ((b.Close - b.Low) / b.Low * 100) ∧
      demoC_e1.is_winner = some (decide (b.Low < b.Close)) :=
  C10_zero_horizon demo_state 5 1 demoC_e1 (by rw [demoC_events]; simp)

end Silver
